import Mathlib

/-!
# sad-repos: commit-message sentiment pipeline

A shallow embedding of `analyze/analyze.go` and `main.go`.

* Go strings are Lean strings: commit messages reach the pipeline decoded from JSON, so
  they are valid UTF-8.
* Go slices are Lean lists; a nil slice and an empty slice are both `[]`.
* A Go `(value, error)` result is a pair whose second component is `none` for a nil error.
* The remote services are state-passing functions: each request consumes the service state
  and yields the answer together with the next state, so a service may answer the same
  request differently on different calls.
* Library routines that are not part of the repository and cannot be written down
  faithfully here (`json.Unmarshal`, `strconv.ParseFloat`, the HTTP client, the commit
  listing client) are fields of `Env`.
-/

namespace SadRepos

/-! ## Library models -/

/-- Number of bytes `encoding/json` writes for one character inside a string literal, with
HTML escaping on as `json.Marshal` has it: `"` and `\` take a backslash, `\n`, `\r`, `\t`,
`\b`, `\f` have two-byte escapes, the other control characters and `<`, `>`, `&` are written
as `\u00XX`, U+2028 and U+2029 as `\u202X`, everything else is copied in UTF-8. -/
def jsonCharSize (c : Char) : Nat :=
  if c = '"' ∨ c = '\\' then 2
  else if c = '\n' ∨ c = '\r' ∨ c = '\t' ∨ c.toNat = 0x08 ∨ c.toNat = 0x0c then 2
  else if c.toNat < 0x20 ∨ c = '<' ∨ c = '>' ∨ c = '&' then 6
  else if c.toNat = 0x2028 ∨ c.toNat = 0x2029 then 6
  else c.utf8Size

/-- Number of bytes of the JSON string literal of `s`: two quotes and the characters. -/
def jsonStringSize (s : String) : Nat :=
  2 + (s.data.map jsonCharSize).sum

/-- Value of `binary.Size(b)` for `b, _ := json.Marshal(t)` with `t` a non-nil `[]string`:
the byte length of `[` elements separated by `,` and `]`. Marshalling a `[]string` cannot
fail, so the error branch of the callers is dead and left out. -/
def jsonMarshalSize : List String → Nat
  | [] => 2
  | m :: ms => 2 + jsonStringSize m + (ms.map fun x => 1 + jsonStringSize x).sum

/-- Go `strings.HasPrefix` on the characters of two strings. -/
def hasPrefix (s p : String) : Bool :=
  p.data.isPrefixOf s.data

/-- Go `strings.Split(s, "/")` on a character list: `cur` is the part being read. The
result has one more element than `s` has separators. -/
def splitSlashAux : List Char → List Char → List String
  | [], cur => [String.mk cur]
  | c :: cs, cur =>
    if c = '/' then String.mk cur :: splitSlashAux cs []
    else splitSlashAux cs (cur ++ [c])

/-- Go `strings.Split(s, "/")`. -/
def splitSlash (s : String) : List String :=
  splitSlashAux s.data []

/-! ## Data model -/

/-- Go `error` values, represented by their message. -/
abbrev Error := String

/-- Go `float32`, represented by its IEEE 754 bit pattern. -/
abbrev Float32 := Nat

/-- Go `type Analysis struct`. -/
structure Analysis where
  Sentiment : String
  ConfidenceStr : String
  Confidence : Float32
deriving DecidableEq

/-- Go `type Repo struct`. -/
structure Repo where
  Owner : String
  Name : String
deriving DecidableEq

/-- Outcome of `s.client.Post` followed by `ioutil.ReadAll(resp.Body)`: either `Post`
returns an error, or there is a response with a status code whose body either fails to
read or reads as `js`. -/
inductive PostResult where
  | transportError (err : Error)
  | response (status : Nat) (body : Except Error String)

/-- Outcome of one `client.Repositories.ListCommits` call: an error, or the commit messages
of the page and `resp.NextPage`. -/
abbrev ListResult := Except Error (List String × Nat)

/-- The collaborators of the pipeline. `σ` is the state of the sentiment service and `γ`
the state of the commit-listing service. -/
structure Env (σ γ : Type) where
  /-- The sentiment endpoint: the request is identified by the array it serialises. -/
  post : σ → List String → PostResult × σ
  /-- `json.Unmarshal(js, &as)` with `as` a `[]Analysis`. -/
  unmarshal : String → Except Error (List Analysis)
  /-- `strconv.ParseFloat(str, 32)` followed by the `float32` conversion. -/
  parseFloat : String → Except Error Float32
  /-- `client.Repositories.ListCommits` for the page number in the options. -/
  listCommits : γ → Nat → ListResult × γ

/-- One call of `bulkAnalyze` as seen from `getAnalysis`: the argument and what came back. -/
structure Call where
  batch : List String
  res : List Analysis
  err : Option Error
deriving DecidableEq

/-- What a run of `getAnalysis` or `Analyze` yields: the two Go results, the sentiment
service state afterwards, and the `bulkAnalyze` calls made, in order. -/
structure Run (σ : Type) where
  res : List Analysis
  err : Option Error
  st : σ
  calls : List Call

/-! ## analyze.go -/

/-- The payload ceiling tested in `getAnalysis`. -/
def maxPayload : Nat := 1000000

/-- The final loop of `bulkAnalyze` over the decoded records, with the named result `res`
as accumulator. On a parse failure the Go code does `return res, err`. -/
def convertLoop (parseFloat : String → Except Error Float32) :
    List Analysis → List Analysis → List Analysis × Option Error
  | [], res => (res, none)
  | a :: as, res =>
    match parseFloat a.ConfidenceStr with
    | .error e => (res, some e)
    | .ok conf => convertLoop parseFloat as (res ++ [⟨a.Sentiment, a.ConfidenceStr, conf⟩])

/-- What `bulkAnalyze` does with the outcome of its request. The status is not looked at. -/
def decodeResponse {σ γ : Type} (env : Env σ γ) : PostResult → List Analysis × Option Error
  | .transportError e => ([], some ("http: " ++ e))
  | .response _ (.error e) => ([], some ("http body: " ++ e))
  | .response _ (.ok js) =>
    match env.unmarshal js with
    | .error e => ([], some ("json err: " ++ e ++ "\njson: " ++ js))
    | .ok as => convertLoop env.parseFloat as []

/-- Go `(s *Sentiment) bulkAnalyze`. -/
def bulkAnalyze {σ γ : Type} (env : Env σ γ) (s : σ) (msgs : List String) :
    (List Analysis × Option Error) × σ :=
  let r := env.post s msgs
  (decodeResponse env r.1, r.2)

/-- The `for _, msg := range msgs` loop of `getAnalysis` and the code after it, with the
locals `res` and `payload`, the service state and the calls made so far. -/
def getAnalysisLoop {σ γ : Type} (env : Env σ γ) :
    List String → List Analysis → List String → σ → List Call → Run σ
  | [], res, payload, s, calls =>
    if payload.length > 0 then
      let r := bulkAnalyze env s payload
      let calls' := calls ++ [⟨payload, r.1.1, r.1.2⟩]
      match r.1.2 with
      | some e => ⟨[], some e, r.2, calls'⟩
      | none => ⟨res ++ r.1.1, none, r.2, calls'⟩
    else ⟨res, none, s, calls⟩
  | msg :: rest, res, payload, s, calls =>
    let t := payload ++ [msg]
    if jsonMarshalSize t > maxPayload then
      let r := bulkAnalyze env s payload
      let calls' := calls ++ [⟨payload, r.1.1, r.1.2⟩]
      match r.1.2 with
      | some e => ⟨[], some e, r.2, calls'⟩
      | none => getAnalysisLoop env rest (res ++ r.1.1) [msg] r.2 calls'
    else getAnalysisLoop env rest res (payload ++ [msg]) s calls

/-- Go `(s *Sentiment) getAnalysis`. -/
def getAnalysis {σ γ : Type} (env : Env σ γ) (s : σ) (msgs : List String) : Run σ :=
  getAnalysisLoop env msgs [] [] s []

/-- The merge-commit test of `getMessages`. -/
def isMerge (msg : String) : Bool :=
  hasPrefix msg "Merge pull request" || hasPrefix msg "Merge branch"

/-- The inner `for _, commit := range commits` loop of `getMessages`. -/
def appendCommits : List String → List String → List String
  | [], msgs => msgs
  | c :: cs, msgs =>
    if isMerge c then appendCommits cs msgs
    else appendCommits cs (msgs ++ [c])

/-- The outer `for` loop of `getMessages`, which has no bound of its own: `fuel` counts the
requests allowed, and `none` means they were used up before `NextPage` was 0. -/
def getMessagesLoop {σ γ : Type} (env : Env σ γ) :
    Nat → γ → Nat → List String → Option ((List String × Option Error) × γ)
  | 0, _, _, _ => none
  | fuel + 1, g, page, msgs =>
    match env.listCommits g page with
    | (.error e, g') => some (([], some e), g')
    | (.ok (commits, nextPage), g') =>
      let msgs' := appendCommits commits msgs
      if nextPage = 0 then some ((msgs', none), g')
      else getMessagesLoop env fuel g' nextPage msgs'

/-- Go `getMessages`: the first request is for page 1. -/
def getMessages {σ γ : Type} (env : Env σ γ) (fuel : Nat) (g : γ) :
    Option ((List String × Option Error) × γ) :=
  getMessagesLoop env fuel g 1 []

/-- Go `(s *Sentiment) Analyze`. -/
def Analyze {σ γ : Type} (env : Env σ γ) (fuel : Nat) (g : γ) (s : σ) : Option (Run σ) :=
  match getMessages env fuel g with
  | none => none
  | some ((_, some e), _) => some ⟨[], some e, s, []⟩
  | some ((msgs, none), _) =>
    let r := getAnalysis env s msgs
    match r.err with
    | some e => some ⟨[], some e, r.st, r.calls⟩
    | none => some ⟨r.res, none, r.st, r.calls⟩

/-! ## main.go -/

/-- Go `NewRepos`, with `repos` as accumulator. -/
def NewReposLoop : List String → List Repo → List Repo
  | [], repos => repos
  | repo :: r, repos =>
    match splitSlash repo with
    | [owner, name] => NewReposLoop r (repos ++ [⟨owner, name⟩])
    | _ => NewReposLoop r repos

/-- Go `NewRepos`. -/
def NewRepos (r : List String) : List Repo :=
  NewReposLoop r []

/-- Go `(r Repo) FullName`. -/
def Repo.FullName (r : Repo) : String :=
  r.Owner ++ "/" ++ r.Name

/-! ## Specification vocabulary -/

/-- The calls obtained by running `bulkAnalyze` on the given batches one after the other,
each on the service state the previous one left. -/
def replayCalls {σ γ : Type} (env : Env σ γ) : σ → List (List String) → List Call
  | _, [] => []
  | s, b :: bs =>
    let r := bulkAnalyze env s b
    ⟨b, r.1.1, r.1.2⟩ :: replayCalls env r.2 bs

/-- The state in which `replayCalls` leaves the service. -/
def replayState {σ γ : Type} (env : Env σ γ) : σ → List (List String) → σ
  | s, [] => s
  | s, b :: bs => replayState env (bulkAnalyze env s b).2 bs

/-- The listing service, asked for `page` in state `g`, answers without error with the
commit pages `pages`: each answer but the last names a non-zero next page, which is the
page asked for next, and the last answer has `NextPage` 0. -/
inductive ServesPages {σ γ : Type} (env : Env σ γ) : γ → Nat → List (List String) → Prop where
  | last {g g' : γ} {page : Nat} {commits : List String} :
      env.listCommits g page = (.ok (commits, 0), g') →
      ServesPages env g page [commits]
  | more {g g' : γ} {page next : Nat} {commits : List String} {pages : List (List String)} :
      env.listCommits g page = (.ok (commits, next), g') → next ≠ 0 →
      ServesPages env g' next pages →
      ServesPages env g page (commits :: pages)

/-- The outcomes of a request on which `bulkAnalyze` has something to report: `Post`
failed, the body could not be read, the body does not decode, or some decoded record has a
confidence that does not parse. The status is not part of it. -/
def Rejected {σ γ : Type} (env : Env σ γ) : PostResult → Prop
  | .transportError _ => True
  | .response _ (.error _) => True
  | .response _ (.ok js) =>
    match env.unmarshal js with
    | .error _ => True
    | .ok as => ∃ a ∈ as, ∃ e, env.parseFloat a.ConfidenceStr = .error e

/-- A converted record `o` of the decoded record `b`: same label and confidence string,
and the parsed confidence. -/
def Converted (parseFloat : String → Except Error Float32) (b o : Analysis) : Prop :=
  o.Sentiment = b.Sentiment ∧ o.ConfidenceStr = b.ConfidenceStr ∧
    parseFloat b.ConfidenceStr = .ok o.Confidence

/-- A message that starts with neither `Merge pull request` nor `Merge branch`. -/
def keptMessage (m : String) : Prop :=
  ¬ ("Merge pull request".data <+: m.data) ∧ ¬ ("Merge branch".data <+: m.data)

instance (m : String) : Decidable (keptMessage m) := by
  unfold keptMessage; infer_instance

/-! ## Concrete collaborators used for the worked examples -/

/-- A message of `n` letters `a`. -/
def letters (n : Nat) : String :=
  String.mk (List.replicate n 'a')

/-- A message whose one-element array serialises to 1,000,004 bytes. -/
def bigMsg : String := letters 1000000

/-- A message whose one-element array serialises to 600,004 bytes. -/
def halfMsg : String := letters 600000

/-- A response body with one record. -/
def oneRecordBody : String :=
  "[\x7b\"result\":\"Positive\",\"confidence\":\"87.5\"\x7d]"

/-- A response body with two records, the second with the confidence `abc`. -/
def badSecondBody : String :=
  "[\x7b\"result\":\"Positive\",\"confidence\":\"87.5\"\x7d," ++
  "\x7b\"result\":\"Negative\",\"confidence\":\"abc\"\x7d]"

/-- The values of `json.Unmarshal` on the bodies used below. -/
def demoUnmarshal (js : String) : Except Error (List Analysis) :=
  if js = "[]" then .ok []
  else if js = oneRecordBody then .ok [⟨"Positive", "87.5", 0⟩]
  else if js = badSecondBody then .ok [⟨"Positive", "87.5", 0⟩, ⟨"Negative", "abc", 0⟩]
  else .error "invalid character"

/-- The values of `strconv.ParseFloat(_, 32)` on the confidences used below; `0x42AF0000`
is the `float32` 87.5. -/
def demoParseFloat (str : String) : Except Error Float32 :=
  if str = "87.5" then .ok 0x42AF0000
  else .error ("strconv.ParseFloat: parsing \"" ++ str ++ "\": invalid syntax")

/-- A listing with two pages of two commits each. -/
def demoList (_ : Unit) (page : Nat) : ListResult × Unit :=
  if page = 1 then (.ok (["Merge branch dev", "fix the build"], 2), ())
  else if page = 2 then (.ok (["add a feature", "Merge pull request #3 from dev"], 0), ())
  else (.error "404 Not Found", ())

/-- A sentiment service that answers every request with the given status and body. -/
def demoEnv (status : Nat) (js : String) : Env Unit Unit :=
  ⟨fun _ _ => (.response status (.ok js), ()), demoUnmarshal, demoParseFloat, demoList⟩

/-- A sentiment service that cannot be reached. -/
def downEnv : Env Unit Unit :=
  ⟨fun _ _ => (.transportError "connection refused", ()), demoUnmarshal, demoParseFloat,
    demoList⟩

/-- A sentiment service, with the number of requests served as state, that answers the
first request and cannot be reached afterwards. -/
def flakyEnv : Env Nat Unit :=
  ⟨fun n _ => (if n = 0 then .response 200 (.ok oneRecordBody)
      else .transportError "connection refused", n + 1),
    demoUnmarshal, demoParseFloat, demoList⟩

/-- A listing service that rejects the token. -/
def lockedEnv : Env Unit Unit :=
  ⟨fun _ _ => (.response 200 (.ok "[]"), ()), demoUnmarshal, demoParseFloat,
    fun _ _ => (.error "401 Bad credentials", ())⟩

/-! ## Sizes -/

theorem jsonStringSize_letters (n : Nat) : jsonStringSize (letters n) = n + 2 := by
  have h : jsonCharSize 'a' = 1 := by decide
  simp [jsonStringSize, letters, List.map_replicate, List.sum_replicate, h]
  omega

theorem jsonMarshalSize_nil : jsonMarshalSize [] = 2 := rfl

theorem jsonMarshalSize_one (m : String) : jsonMarshalSize [m] = jsonStringSize m + 2 := by
  simp [jsonMarshalSize]; omega

theorem jsonMarshalSize_two (m n : String) :
    jsonMarshalSize [m, n] = jsonStringSize m + jsonStringSize n + 3 := by
  simp [jsonMarshalSize]; omega

/-! ## The loop of `getAnalysis` -/

/-- A property of batches that holds of the pending payload, of every one-message batch and
of every extension that stays within the ceiling holds of every batch sent. -/
theorem getAnalysisLoop_batches {σ γ : Type} (env : Env σ γ) (P : List String → Prop)
    (hone : ∀ m, P [m])
    (hext : ∀ p m, jsonMarshalSize (p ++ [m]) ≤ maxPayload → P (p ++ [m])) :
    ∀ (msgs : List String) (res : List Analysis) (payload : List String) (s : σ)
      (calls : List Call), P payload → (∀ c ∈ calls, P c.batch) →
      ∀ c ∈ (getAnalysisLoop env msgs res payload s calls).calls, P c.batch := by
  intro msgs
  induction msgs with
  | nil =>
    intro res payload s calls hp hc c hmem
    simp only [getAnalysisLoop] at hmem
    split at hmem
    · split at hmem
      · simp only [List.mem_append, List.mem_singleton] at hmem
        rcases hmem with h | h
        · exact hc c h
        · subst h; exact hp
      · simp only [List.mem_append, List.mem_singleton] at hmem
        rcases hmem with h | h
        · exact hc c h
        · subst h; exact hp
    · exact hc c hmem
  | cons msg rest ih =>
    intro res payload s calls hp hc c hmem
    simp only [getAnalysisLoop] at hmem
    split at hmem
    · split at hmem
      · simp only [List.mem_append, List.mem_singleton] at hmem
        rcases hmem with h | h
        · exact hc c h
        · subst h; exact hp
      · refine ih _ _ _ _ (hone msg) ?_ c hmem
        intro c' hc'
        simp only [List.mem_append, List.mem_singleton] at hc'
        rcases hc' with h | h
        · exact hc c' h
        · subst h; exact hp
    · rename_i hle
      exact ih _ _ _ _ (hext payload msg (Nat.le_of_not_lt hle)) hc c hmem

theorem replayCalls_batches {σ γ : Type} (env : Env σ γ) (bs : List (List String)) :
    ∀ s : σ, (replayCalls env s bs).map Call.batch = bs := by
  induction bs with
  | nil => intro s; rfl
  | cons b bs ih => intro s; simp [replayCalls, ih]

theorem replayCalls_snoc {σ γ : Type} (env : Env σ γ) (bs : List (List String))
    (b : List String) :
    ∀ s : σ, replayCalls env s (bs ++ [b]) =
      replayCalls env s bs ++
        [⟨b, (bulkAnalyze env (replayState env s bs) b).1.1,
          (bulkAnalyze env (replayState env s bs) b).1.2⟩] := by
  induction bs with
  | nil => intro s; rfl
  | cons b0 bs ih => intro s; simp [replayCalls, replayState, ih]

theorem replayState_snoc {σ γ : Type} (env : Env σ γ) (bs : List (List String))
    (b : List String) :
    ∀ s : σ, replayState env s (bs ++ [b]) =
      (bulkAnalyze env (replayState env s bs) b).2 := by
  induction bs with
  | nil => intro s; rfl
  | cons b0 bs ih => intro s; simp [replayState, ih]

/-- The calls of the loop are real calls: they are what `bulkAnalyze` returns on the
batches sent, in order, starting from the state the loop was entered in. -/
theorem getAnalysisLoop_replay {σ γ : Type} (env : Env σ γ) :
    ∀ (msgs : List String) (res : List Analysis) (payload : List String) (s0 : σ)
      (bs : List (List String)),
      ∃ bs', (getAnalysisLoop env msgs res payload (replayState env s0 bs)
          (replayCalls env s0 bs)).calls = replayCalls env s0 bs' := by
  intro msgs
  induction msgs with
  | nil =>
    intro res payload s0 bs
    simp only [getAnalysisLoop]
    split
    · split
      · exact ⟨bs ++ [payload], by rw [replayCalls_snoc]⟩
      · exact ⟨bs ++ [payload], by rw [replayCalls_snoc]⟩
    · exact ⟨bs, rfl⟩
  | cons msg rest ih =>
    intro res payload s0 bs
    simp only [getAnalysisLoop]
    split
    · split
      · exact ⟨bs ++ [payload], by rw [replayCalls_snoc]⟩
      · have h := ih (res ++ (bulkAnalyze env (replayState env s0 bs) payload).1.1) [msg] s0
          (bs ++ [payload])
        rw [replayCalls_snoc, replayState_snoc] at h
        exact h
    · exact ih _ _ s0 bs

theorem getAnalysis_replay {σ γ : Type} (env : Env σ γ) (s : σ) (msgs : List String) :
    (getAnalysis env s msgs).calls =
      replayCalls env s ((getAnalysis env s msgs).calls.map Call.batch) := by
  obtain ⟨bs, h⟩ := getAnalysisLoop_replay env msgs [] [] s []
  have h' : (getAnalysis env s msgs).calls = replayCalls env s bs := h
  rw [h', replayCalls_batches]

/-- A run of the loop entered with successful calls either succeeds with every call
successful, or ends on its first failing call with that error and no results. -/
theorem getAnalysisLoop_outcome {σ γ : Type} (env : Env σ γ) :
    ∀ (msgs : List String) (res : List Analysis) (payload : List String) (s : σ)
      (calls : List Call), (∀ c ∈ calls, c.err = none) →
      ((getAnalysisLoop env msgs res payload s calls).err = none ∧
        ∀ c ∈ (getAnalysisLoop env msgs res payload s calls).calls, c.err = none) ∨
      (∃ e pre c, (getAnalysisLoop env msgs res payload s calls).err = some e ∧
        (getAnalysisLoop env msgs res payload s calls).res = [] ∧
        (getAnalysisLoop env msgs res payload s calls).calls = pre ++ [c] ∧
        c.err = some e ∧ ∀ c' ∈ pre, c'.err = none) := by
  intro msgs
  induction msgs with
  | nil =>
    intro res payload s calls hc
    simp only [getAnalysisLoop]
    split
    · split
      · rename_i e he
        exact Or.inr ⟨e, calls, _, rfl, rfl, rfl, he, hc⟩
      · rename_i he
        refine Or.inl ⟨rfl, ?_⟩
        intro c hmem
        simp only [List.mem_append, List.mem_singleton] at hmem
        rcases hmem with h | h
        · exact hc c h
        · subst h; exact he
    · exact Or.inl ⟨rfl, hc⟩
  | cons msg rest ih =>
    intro res payload s calls hc
    simp only [getAnalysisLoop]
    split
    · split
      · rename_i e he
        exact Or.inr ⟨e, calls, _, rfl, rfl, rfl, he, hc⟩
      · rename_i he
        apply ih
        intro c hmem
        simp only [List.mem_append, List.mem_singleton] at hmem
        rcases hmem with h | h
        · exact hc c h
        · subst h; exact he
    · exact ih _ _ _ _ hc

/-- A successful run of the loop has sent, after the batches already sent, the pending
payload followed by the remaining messages, and returns the results collected so far
followed by those of the new calls. -/
theorem getAnalysisLoop_concat {σ γ : Type} (env : Env σ γ) :
    ∀ (msgs : List String) (res : List Analysis) (payload : List String) (s : σ)
      (calls : List Call),
      (getAnalysisLoop env msgs res payload s calls).err = none →
      res = (calls.map Call.res).flatten →
      ((getAnalysisLoop env msgs res payload s calls).calls.map Call.batch).flatten =
          (calls.map Call.batch).flatten ++ payload ++ msgs ∧
        (getAnalysisLoop env msgs res payload s calls).res =
          ((getAnalysisLoop env msgs res payload s calls).calls.map Call.res).flatten := by
  intro msgs
  induction msgs with
  | nil =>
    intro res payload s calls herr hres
    simp only [getAnalysisLoop] at herr ⊢
    split
    · rename_i hlen
      split
      · rename_i e he
        simp [hlen, he] at herr
      · simp [hres]
    · rename_i hlen
      have : payload = [] := by
        cases payload with
        | nil => rfl
        | cons a l => simp at hlen
      simp [this, hres]
  | cons msg rest ih =>
    intro res payload s calls herr hres
    simp only [getAnalysisLoop] at herr ⊢
    split
    · rename_i hgt
      split
      · rename_i e he
        simp [hgt, he] at herr
      · rename_i he
        simp only [hgt, he, if_true] at herr
        have h := ih _ _ _ _ herr (by simp [hres])
        simp only [he]
        refine ⟨?_, h.2⟩
        rw [h.1]; simp
    · rename_i hle
      simp only [hle, if_false] at herr
      have h := ih _ _ _ _ herr hres
      refine ⟨?_, h.2⟩
      rw [h.1]; simp

/-! ## Worked runs -/

theorem demoUnmarshal_empty : demoUnmarshal "[]" = .ok [] := rfl

theorem demoUnmarshal_oneRecord :
    demoUnmarshal oneRecordBody = .ok [⟨"Positive", "87.5", 0⟩] := by
  simp [demoUnmarshal, oneRecordBody]

theorem demoUnmarshal_badSecond :
    demoUnmarshal badSecondBody =
      .ok [⟨"Positive", "87.5", 0⟩, ⟨"Negative", "abc", 0⟩] := by
  simp [demoUnmarshal, oneRecordBody, badSecondBody]

theorem demoParseFloat_ok : demoParseFloat "87.5" = .ok 0x42AF0000 := by
  simp [demoParseFloat]

theorem bulkAnalyze_demo_empty (status : Nat) (msgs : List String) :
    bulkAnalyze (demoEnv status "[]") () msgs = (([], none), ()) := by
  simp [bulkAnalyze, decodeResponse, demoEnv, demoUnmarshal_empty, convertLoop]

theorem bulkAnalyze_demo_oneRecord (status : Nat) (msgs : List String) :
    bulkAnalyze (demoEnv status oneRecordBody) () msgs =
      (([⟨"Positive", "87.5", 0x42AF0000⟩], none), ()) := by
  simp [bulkAnalyze, decodeResponse, demoEnv, demoUnmarshal_oneRecord, convertLoop,
    demoParseFloat_ok]

theorem bulkAnalyze_down (msgs : List String) :
    bulkAnalyze downEnv () msgs = (([], some "http: connection refused"), ()) := by
  simp [bulkAnalyze, decodeResponse, downEnv]

theorem jsonMarshalSize_fix : jsonMarshalSize ["fix"] = 7 := by decide

theorem jsonStringSize_fix : jsonStringSize "fix" = 5 := by decide

theorem jsonStringSize_doc : jsonStringSize "doc" = 5 := by decide

theorem run_small_big_small :
    (getAnalysis (demoEnv 200 "[]") () ["fix", bigMsg, "doc"]).calls =
      [⟨["fix"], [], none⟩, ⟨[bigMsg], [], none⟩, ⟨["doc"], [], none⟩] := by
  simp [getAnalysis, getAnalysisLoop, bulkAnalyze_demo_empty, jsonMarshalSize_one,
    jsonMarshalSize_two, jsonStringSize_letters, jsonStringSize_fix, jsonStringSize_doc,
    bigMsg, maxPayload]

theorem run_big_alone :
    (getAnalysis (demoEnv 200 "[]") () [bigMsg]).calls =
      [⟨[], [], none⟩, ⟨[bigMsg], [], none⟩] := by
  simp [getAnalysis, getAnalysisLoop, bulkAnalyze_demo_empty, jsonMarshalSize_one,
    jsonStringSize_letters, bigMsg, maxPayload]

theorem run_half_half_fix :
    (getAnalysis (demoEnv 200 oneRecordBody) () [halfMsg, halfMsg, "fix"]).calls =
      [⟨[halfMsg], [⟨"Positive", "87.5", 0x42AF0000⟩], none⟩,
       ⟨[halfMsg, "fix"], [⟨"Positive", "87.5", 0x42AF0000⟩], none⟩] := by
  simp [getAnalysis, getAnalysisLoop, bulkAnalyze_demo_oneRecord, jsonMarshalSize_one,
    jsonMarshalSize_two, jsonStringSize_letters, jsonStringSize_fix, halfMsg, maxPayload]

theorem run_down :
    (getAnalysis downEnv () [halfMsg, letters 500000]).calls =
      [⟨[halfMsg], [], some "http: connection refused"⟩] := by
  simp [getAnalysis, getAnalysisLoop, bulkAnalyze_down, jsonMarshalSize_one,
    jsonMarshalSize_two, jsonStringSize_letters, halfMsg, maxPayload]

/-! ## Claims about `getAnalysis` -/

/-- C1: every batch that `getAnalysis` passes to `bulkAnalyze` either serialises to at most
1,000,000 bytes or consists of exactly one message. -/
theorem getAnalysis_batch_bounded_or_single {σ γ : Type} (env : Env σ γ) (s : σ)
    (msgs : List String) :
    ∀ c ∈ (getAnalysis env s msgs).calls,
      jsonMarshalSize c.batch ≤ 1000000 ∨ c.batch.length = 1 := by
  apply getAnalysisLoop_batches env
    (fun b => jsonMarshalSize b ≤ 1000000 ∨ b.length = 1)
  · intro m; exact Or.inr rfl
  · intro p m h; exact Or.inl h
  · exact Or.inl (by decide)
  · intro c hc; cases hc

/-- C1, applied: in the run on two 600,000-letter messages and `fix` the second batch,
of two messages, is within the ceiling. -/
theorem getAnalysis_batch_bounded_or_single_witness :
    (⟨[halfMsg, "fix"], [⟨"Positive", "87.5", 0x42AF0000⟩], none⟩ : Call) ∈
        (getAnalysis (demoEnv 200 oneRecordBody) () [halfMsg, halfMsg, "fix"]).calls ∧
      (jsonMarshalSize [halfMsg, "fix"] ≤ 1000000 ∨ [halfMsg, "fix"].length = 1) :=
  ⟨by rw [run_half_half_fix]; simp,
   getAnalysis_batch_bounded_or_single (demoEnv 200 oneRecordBody) ()
     [halfMsg, halfMsg, "fix"] ⟨[halfMsg, "fix"], [⟨"Positive", "87.5", 0x42AF0000⟩], none⟩
     (by rw [run_half_half_fix]; simp)⟩

/-- C2: when every batch analysis succeeds, the batches sent, concatenated in order, are
the input, the result is the concatenation of the per-batch results in that order, no
error is returned, and the calls are those of `bulkAnalyze` on these batches in order. -/
theorem getAnalysis_partitions_input {σ γ : Type} (env : Env σ γ) (s : σ)
    (msgs : List String)
    (hok : ∀ c ∈ (getAnalysis env s msgs).calls, c.err = none) :
    ((getAnalysis env s msgs).calls.map Call.batch).flatten = msgs ∧
      (getAnalysis env s msgs).res =
        ((getAnalysis env s msgs).calls.map Call.res).flatten ∧
      (getAnalysis env s msgs).err = none ∧
      (getAnalysis env s msgs).calls =
        replayCalls env s ((getAnalysis env s msgs).calls.map Call.batch) := by
  have herr : (getAnalysis env s msgs).err = none := by
    rcases getAnalysisLoop_outcome env msgs [] [] s [] (by simp) with h | h
    · exact h.1
    · obtain ⟨e, pre, c, _, _, hcalls, hce, _⟩ := h
      have hmem : c ∈ (getAnalysis env s msgs).calls := by
        show c ∈ (getAnalysisLoop env msgs [] [] s []).calls
        rw [hcalls]; simp
      rw [hok c hmem] at hce
      cases hce
  have h := getAnalysisLoop_concat env msgs [] [] s [] herr (by simp)
  refine ⟨?_, h.2, herr, getAnalysis_replay env s msgs⟩
  have h1 := h.1
  simpa using h1

/-- C2, applied to two 600,000-letter messages followed by `fix`, sent as two batches. -/
theorem getAnalysis_partitions_input_witness :
    (∀ c ∈ (getAnalysis (demoEnv 200 oneRecordBody) () [halfMsg, halfMsg, "fix"]).calls,
        c.err = none) ∧
      ((getAnalysis (demoEnv 200 oneRecordBody) () [halfMsg, halfMsg, "fix"]).calls.map
          Call.batch).flatten = [halfMsg, halfMsg, "fix"] ∧
      (getAnalysis (demoEnv 200 oneRecordBody) () [halfMsg, halfMsg, "fix"]).res =
        ((getAnalysis (demoEnv 200 oneRecordBody) () [halfMsg, halfMsg, "fix"]).calls.map
          Call.res).flatten :=
  have hok : ∀ c ∈ (getAnalysis (demoEnv 200 oneRecordBody) () [halfMsg, halfMsg, "fix"]).calls,
      c.err = none := by
    rw [run_half_half_fix]; simp
  have h := getAnalysis_partitions_input (demoEnv 200 oneRecordBody) ()
    [halfMsg, halfMsg, "fix"] hok
  ⟨hok, h.1, h.2.1⟩

/-- C3, refuted as stated: on `fix`, a 1,000,000-letter message and `doc` the second of the
three batches sent is followed by another batch and serialises to more than 1,000,000
bytes. -/
theorem getAnalysis_oversized_batch_not_last :
    (getAnalysis (demoEnv 200 "[]") () ["fix", bigMsg, "doc"]).calls.map Call.batch =
        [["fix"], [bigMsg], ["doc"]] ∧
      1000000 < jsonMarshalSize [bigMsg] ∧
      ¬ (∀ (i : Nat) (c : Call),
          (getAnalysis (demoEnv 200 "[]") () ["fix", bigMsg, "doc"]).calls[i]? = some c →
          i + 1 < (getAnalysis (demoEnv 200 "[]") () ["fix", bigMsg, "doc"]).calls.length →
          jsonMarshalSize c.batch ≤ 1000000) := by
  have hbig : jsonMarshalSize [bigMsg] = 1000004 := by
    simp [jsonMarshalSize_one, jsonStringSize_letters, bigMsg]
  refine ⟨by rw [run_small_big_small]; rfl, by rw [hbig]; decide, ?_⟩
  intro h
  have h1 := h 1 ⟨[bigMsg], [], none⟩ (by rw [run_small_big_small]; rfl)
    (by rw [run_small_big_small]; decide)
  rw [hbig] at h1
  exact absurd h1 (by decide)

/-- C3, amended: at every position of the sequence of batches sent, last or not, the batch
serialises to at most 1,000,000 bytes unless it consists of a single message that alone
serialises to more. -/
theorem getAnalysis_batch_bounded_unless_single_oversized {σ γ : Type} (env : Env σ γ)
    (s : σ) (msgs : List String) (i : Nat) (c : Call)
    (hi : (getAnalysis env s msgs).calls[i]? = some c) :
    jsonMarshalSize c.batch ≤ 1000000 ∨
      ∃ m, c.batch = [m] ∧ 1000000 < jsonMarshalSize [m] := by
  have hmem : c ∈ (getAnalysis env s msgs).calls := List.getElem?_mem hi
  refine getAnalysisLoop_batches env
    (fun b => jsonMarshalSize b ≤ 1000000 ∨ ∃ m, b = [m] ∧ 1000000 < jsonMarshalSize [m])
    ?_ ?_ msgs [] [] s [] ?_ ?_ c hmem
  · intro m
    by_cases h : jsonMarshalSize [m] ≤ 1000000
    · exact Or.inl h
    · exact Or.inr ⟨m, rfl, Nat.lt_of_not_le h⟩
  · intro p m h; exact Or.inl h
  · exact Or.inl (by decide)
  · intro c hc; cases hc

/-- C3 as amended, applied to the middle batch of the run on `fix`, a 1,000,000-letter
message and `doc`. -/
theorem getAnalysis_batch_bounded_unless_single_oversized_witness :
    (getAnalysis (demoEnv 200 "[]") () ["fix", bigMsg, "doc"]).calls[1]? =
        some ⟨[bigMsg], [], none⟩ ∧
      (jsonMarshalSize [bigMsg] ≤ 1000000 ∨
        ∃ m, [bigMsg] = [m] ∧ 1000000 < jsonMarshalSize [m]) :=
  ⟨by rw [run_small_big_small]; rfl,
   getAnalysis_batch_bounded_unless_single_oversized (demoEnv 200 "[]") ()
     ["fix", bigMsg, "doc"] 1 ⟨[bigMsg], [], none⟩ (by rw [run_small_big_small]; rfl)⟩

/-- C4, the code at the failing input: a single message of 1,000,000 letters makes
`getAnalysis` call `bulkAnalyze` twice, first with the empty batch and then with the
message alone. -/
theorem getAnalysis_oversized_first_sends_empty :
    1000000 < jsonMarshalSize [bigMsg] ∧
      (getAnalysis (demoEnv 200 "[]") () [bigMsg]).calls.map Call.batch =
        [[], [bigMsg]] := by
  refine ⟨?_, by rw [run_big_alone]; rfl⟩
  simp [jsonMarshalSize_one, jsonStringSize_letters, bigMsg]

/-- C10, refuted as stated: with a sentiment service that cannot be reached, two messages
that fit one by one but not together lead to one call of `bulkAnalyze`, not two. -/
theorem getAnalysis_two_messages_one_call :
    jsonMarshalSize [halfMsg] ≤ 1000000 ∧
      jsonMarshalSize [letters 500000] ≤ 1000000 ∧
      1000000 < jsonMarshalSize [halfMsg, letters 500000] ∧
      (getAnalysis downEnv () [halfMsg, letters 500000]).calls.map Call.batch =
        [[halfMsg]] := by
  refine ⟨?_, ?_, ?_, by rw [run_down]; rfl⟩
  · simp [jsonMarshalSize_one, jsonStringSize_letters, halfMsg]
  · simp [jsonMarshalSize_one, jsonStringSize_letters]
  · simp [jsonMarshalSize_two, jsonStringSize_letters, halfMsg]

/-- C10, amended: for two messages that each fit alone and do not fit together,
`getAnalysis` first calls `bulkAnalyze` with the first message alone; if that call
succeeds there is exactly one more call, with the second message alone, and if it fails
it is the only call. -/
theorem getAnalysis_two_messages_split {σ γ : Type} (env : Env σ γ) (s : σ)
    (m1 m2 : String) (h1 : jsonMarshalSize [m1] ≤ 1000000)
    (_h2 : jsonMarshalSize [m2] ≤ 1000000) (h12 : 1000000 < jsonMarshalSize [m1, m2]) :
    ((bulkAnalyze env s [m1]).1.2 = none →
        (getAnalysis env s [m1, m2]).calls = replayCalls env s [[m1], [m2]]) ∧
      ((bulkAnalyze env s [m1]).1.2 ≠ none →
        (getAnalysis env s [m1, m2]).calls = replayCalls env s [[m1]]) := by
  have h1' : ¬ jsonMarshalSize [m1] > maxPayload := Nat.not_lt.mpr h1
  have h12' : jsonMarshalSize [m1, m2] > maxPayload := h12
  constructor
  · intro hok
    simp only [getAnalysis, getAnalysisLoop, List.nil_append, List.singleton_append, h1',
      h12', if_true, if_false, hok, replayCalls]
    rw [if_pos (by simp)]
    split <;> rfl
  · intro hfail
    simp only [getAnalysis, getAnalysisLoop, List.nil_append, List.singleton_append, h1',
      h12', if_true, if_false, replayCalls]
    split
    · rfl
    · rename_i he
      exact absurd he hfail

/-- C10 as amended, applied to messages of 600,000 and 500,000 letters and a service that
answers every request. -/
theorem getAnalysis_two_messages_split_witness :
    jsonMarshalSize [halfMsg] ≤ 1000000 ∧
      jsonMarshalSize [letters 500000] ≤ 1000000 ∧
      1000000 < jsonMarshalSize [halfMsg, letters 500000] ∧
      (bulkAnalyze (demoEnv 200 "[]") () [halfMsg]).1.2 = none ∧
      (getAnalysis (demoEnv 200 "[]") () [halfMsg, letters 500000]).calls =
        replayCalls (demoEnv 200 "[]") () [[halfMsg], [letters 500000]] :=
  have a : jsonMarshalSize [halfMsg] ≤ 1000000 := by
    simp [jsonMarshalSize_one, jsonStringSize_letters, halfMsg]
  have b : jsonMarshalSize [letters 500000] ≤ 1000000 := by
    simp [jsonMarshalSize_one, jsonStringSize_letters]
  have c : 1000000 < jsonMarshalSize [halfMsg, letters 500000] := by
    simp [jsonMarshalSize_two, jsonStringSize_letters, halfMsg]
  have d : (bulkAnalyze (demoEnv 200 "[]") () [halfMsg]).1.2 = none := by
    rw [bulkAnalyze_demo_empty]
  ⟨a, b, c, d,
    (getAnalysis_two_messages_split (demoEnv 200 "[]") () halfMsg (letters 500000)
      a b c).1 d⟩

/-! ## Failure propagation -/

theorem bulkAnalyze_flaky_first (msgs : List String) :
    bulkAnalyze flakyEnv 0 msgs = (([⟨"Positive", "87.5", 0x42AF0000⟩], none), 1) := by
  simp [bulkAnalyze, decodeResponse, flakyEnv, demoUnmarshal_oneRecord, convertLoop,
    demoParseFloat_ok]

theorem bulkAnalyze_flaky_second (msgs : List String) :
    bulkAnalyze flakyEnv 1 msgs = (([], some "http: connection refused"), 2) := by
  simp [bulkAnalyze, decodeResponse, flakyEnv]

theorem run_flaky :
    (getAnalysis flakyEnv 0 [halfMsg, halfMsg, halfMsg]).calls =
      [⟨[halfMsg], [⟨"Positive", "87.5", 0x42AF0000⟩], none⟩] ++
        [⟨[halfMsg], [], some "http: connection refused"⟩] := by
  simp [getAnalysis, getAnalysisLoop, bulkAnalyze_flaky_first, bulkAnalyze_flaky_second,
    jsonMarshalSize_one, jsonMarshalSize_two, jsonStringSize_letters, halfMsg, maxPayload]

theorem getMessages_locked : getMessages lockedEnv 3 () =
    some (([], some "401 Bad credentials"), ()) := by
  simp [getMessages, getMessagesLoop, lockedEnv]

theorem getMessages_down : getMessages downEnv 3 () =
    some ((["fix the build", "add a feature"], none), ()) := by
  simp [getMessages, getMessagesLoop, downEnv, demoList, appendCommits]
  decide

/-- C9: if some `bulkAnalyze` call of `getAnalysis` fails, it is the last call made, all
calls before it succeeded, and `getAnalysis` returns its error and no results; the calls
are those of `bulkAnalyze` on the batches sent. `Analyze` returns the error of
`getMessages` with no results and without any sentiment request, and otherwise returns
what `getAnalysis` returns on the fetched messages, with no results when that is an
error. -/
theorem getAnalysis_Analyze_first_error {σ γ : Type} (env : Env σ γ) (s : σ)
    (msgs : List String) (fuel : Nat) (g : γ) :
    ((∃ c ∈ (getAnalysis env s msgs).calls, c.err ≠ none) →
        ∃ e pre c, (getAnalysis env s msgs).calls = pre ++ [c] ∧
          (∀ c' ∈ pre, c'.err = none) ∧ c.err = some e ∧
          (getAnalysis env s msgs).err = some e ∧ (getAnalysis env s msgs).res = []) ∧
      (getAnalysis env s msgs).calls =
        replayCalls env s ((getAnalysis env s msgs).calls.map Call.batch) ∧
      (∀ ms e g', getMessages env fuel g = some ((ms, some e), g') →
        Analyze env fuel g s = some ⟨[], some e, s, []⟩) ∧
      (∀ ms g', getMessages env fuel g = some ((ms, none), g') →
        ∃ r, Analyze env fuel g s = some r ∧
          r.calls = (getAnalysis env s ms).calls ∧
          r.err = (getAnalysis env s ms).err ∧
          (r.err ≠ none → r.res = []) ∧
          (r.err = none → r.res = (getAnalysis env s ms).res)) := by
  refine ⟨?_, getAnalysis_replay env s msgs, ?_, ?_⟩
  · rintro ⟨c, hmem, hne⟩
    rcases getAnalysisLoop_outcome env msgs [] [] s [] (by simp) with h | h
    · exact absurd (h.2 c hmem) hne
    · obtain ⟨e, pre, c0, herr, hres, hcalls, hce, hpre⟩ := h
      exact ⟨e, pre, c0, hcalls, hpre, hce, herr, hres⟩
  · intro ms e g' h
    simp [Analyze, h]
  · intro ms g' h
    simp only [Analyze, h]
    split
    · rename_i e he
      exact ⟨_, rfl, rfl, he.symm, fun _ => rfl, fun hn => by simp at hn⟩
    · rename_i he
      exact ⟨_, rfl, rfl, he.symm, fun hn => by simp at hn, fun _ => rfl⟩

/-- C9, applied: with a service that answers the first request only, three 600,000-letter
messages give a successful call and a failing one and no third call; with a rejected
token `Analyze` sends nothing; with the sentiment service down `Analyze` returns the
error of `getAnalysis`. -/
theorem getAnalysis_Analyze_first_error_witness :
    (∃ c ∈ (getAnalysis flakyEnv 0 [halfMsg, halfMsg, halfMsg]).calls, c.err ≠ none) ∧
      (∃ e pre c, (getAnalysis flakyEnv 0 [halfMsg, halfMsg, halfMsg]).calls = pre ++ [c] ∧
          (∀ c' ∈ pre, c'.err = none) ∧ c.err = some e ∧
          (getAnalysis flakyEnv 0 [halfMsg, halfMsg, halfMsg]).err = some e ∧
          (getAnalysis flakyEnv 0 [halfMsg, halfMsg, halfMsg]).res = []) ∧
      Analyze lockedEnv 3 () () = some ⟨[], some "401 Bad credentials", (), []⟩ ∧
      (∃ r, Analyze downEnv 3 () () = some r ∧
          r.calls = (getAnalysis downEnv () ["fix the build", "add a feature"]).calls ∧
          r.err = (getAnalysis downEnv () ["fix the build", "add a feature"]).err ∧
          (r.err ≠ none → r.res = []) ∧
          (r.err = none →
            r.res = (getAnalysis downEnv () ["fix the build", "add a feature"]).res)) :=
  have hex : ∃ c ∈ (getAnalysis flakyEnv 0 [halfMsg, halfMsg, halfMsg]).calls,
      c.err ≠ none :=
    ⟨⟨[halfMsg], [], some "http: connection refused"⟩, by rw [run_flaky]; simp, by simp⟩
  ⟨hex,
   (getAnalysis_Analyze_first_error flakyEnv 0 [halfMsg, halfMsg, halfMsg] 0 ()).1 hex,
   (getAnalysis_Analyze_first_error lockedEnv () [] 3 ()).2.2.1 [] _ () getMessages_locked,
   (getAnalysis_Analyze_first_error downEnv () [] 3 ()).2.2.2 _ () getMessages_down⟩

/-! ## `bulkAnalyze` -/

theorem convertLoop_stops (parseFloat : String → Except Error Float32) (a : Analysis)
    (post : List Analysis) (e : Error) (ha : parseFloat a.ConfidenceStr = .error e) :
    ∀ (pre res : List Analysis), (∀ b ∈ pre, ∃ f, parseFloat b.ConfidenceStr = .ok f) →
      ∃ out, convertLoop parseFloat (pre ++ a :: post) res = (res ++ out, some e) ∧
        List.Forall₂ (Converted parseFloat) pre out := by
  intro pre
  induction pre with
  | nil =>
    intro res _
    exact ⟨[], by simp [convertLoop, ha], List.Forall₂.nil⟩
  | cons b pre ih =>
    intro res hpre
    obtain ⟨f, hf⟩ := hpre b (List.mem_cons_self _ _)
    obtain ⟨out, hout, hconv⟩ :=
      ih (res ++ [⟨b.Sentiment, b.ConfidenceStr, f⟩])
        (fun b' hb' => hpre b' (List.mem_cons_of_mem _ hb'))
    refine ⟨⟨b.Sentiment, b.ConfidenceStr, f⟩ :: out, ?_, List.Forall₂.cons ⟨rfl, rfl, hf⟩ hconv⟩
    simp [convertLoop, hf, hout]

theorem convertLoop_error_iff (parseFloat : String → Except Error Float32) :
    ∀ (as res : List Analysis),
      (convertLoop parseFloat as res).2 ≠ none ↔
        ∃ a ∈ as, ∃ e, parseFloat a.ConfidenceStr = .error e := by
  intro as
  induction as with
  | nil => intro res; simp [convertLoop]
  | cons a as ih =>
    intro res
    simp only [convertLoop]
    split
    · rename_i e he
      simp only [ne_eq, reduceCtorEq, not_false_eq_true, true_iff]
      exact ⟨a, List.mem_cons_self _ _, e, he⟩
    · rename_i f hf
      rw [ih]
      constructor
      · rintro ⟨b, hb, e, he⟩
        exact ⟨b, List.mem_cons_of_mem _ hb, e, he⟩
      · rintro ⟨b, hb, e, he⟩
        rcases List.mem_cons.mp hb with h | h
        · subst h; rw [hf] at he; cases he
        · exact ⟨b, h, e, he⟩

theorem getAnalysis_error_iff {σ γ : Type} (env : Env σ γ) (s : σ) (msgs : List String) :
    (getAnalysis env s msgs).err ≠ none ↔
      ∃ c ∈ (getAnalysis env s msgs).calls, c.err ≠ none := by
  rcases getAnalysisLoop_outcome env msgs [] [] s [] (by simp) with h | h
  · constructor
    · intro hne; exact absurd h.1 hne
    · rintro ⟨c, hmem, hne⟩; exact absurd (h.2 c hmem) hne
  · obtain ⟨e, pre, c, herr, _, hcalls, hce, _⟩ := h
    constructor
    · intro _
      refine ⟨c, ?_, by simp [hce]⟩
      show c ∈ (getAnalysisLoop env msgs [] [] s []).calls
      rw [hcalls]; simp
    · intro _
      show (getAnalysisLoop env msgs [] [] s []).err ≠ none
      simp [herr]

theorem getAnalysis_error_no_results {σ γ : Type} (env : Env σ γ) (s : σ)
    (msgs : List String) (h : (getAnalysis env s msgs).err ≠ none) :
    (getAnalysis env s msgs).res = [] := by
  rcases getAnalysisLoop_outcome env msgs [] [] s [] (by simp) with h' | h'
  · exact absurd h'.1 h
  · obtain ⟨_, _, _, _, hres, _⟩ := h'
    exact hres

theorem bulkAnalyze_demo_badSecond (msgs : List String) :
    bulkAnalyze (demoEnv 200 badSecondBody) () msgs =
      (([⟨"Positive", "87.5", 0x42AF0000⟩],
        some "strconv.ParseFloat: parsing \"abc\": invalid syntax"), ()) := by
  simp [bulkAnalyze, decodeResponse, demoEnv, demoUnmarshal_badSecond, convertLoop,
    demoParseFloat]

/-- C6, refuted as stated: when the second of two records has the confidence `abc`,
`bulkAnalyze` returns the parse error together with the first record, converted. -/
theorem bulkAnalyze_returns_partial_list :
    ((demoEnv 200 badSecondBody).post () ["fix", "doc"]).1 =
        .response 200 (.ok badSecondBody) ∧
      demoUnmarshal badSecondBody =
        .ok [⟨"Positive", "87.5", 0⟩, ⟨"Negative", "abc", 0⟩] ∧
      (bulkAnalyze (demoEnv 200 badSecondBody) () ["fix", "doc"]).1.2 =
        some "strconv.ParseFloat: parsing \"abc\": invalid syntax" ∧
      (bulkAnalyze (demoEnv 200 badSecondBody) () ["fix", "doc"]).1.1 =
        [⟨"Positive", "87.5", 0x42AF0000⟩] ∧
      (bulkAnalyze (demoEnv 200 badSecondBody) () ["fix", "doc"]).1.1 ≠ [] := by
  refine ⟨rfl, demoUnmarshal_badSecond, ?_, ?_, ?_⟩ <;>
    simp [bulkAnalyze_demo_badSecond]

/-- C6, amended: if the response decodes to records of which the first with an
unparsable confidence is `a`, `bulkAnalyze` returns the parse error of `a` together with
the records before `a`, converted (an empty list only when `a` is the first record); a
`getAnalysis` that returns an error returns no results. -/
theorem bulkAnalyze_parse_error_keeps_earlier {σ γ : Type} (env : Env σ γ) (s : σ)
    (msgs : List String) (status : Nat) (js : String) (pre : List Analysis) (a : Analysis)
    (post : List Analysis) (e : Error)
    (hpost : (env.post s msgs).1 = .response status (.ok js))
    (hjs : env.unmarshal js = .ok (pre ++ a :: post))
    (hpre : ∀ b ∈ pre, ∃ f, env.parseFloat b.ConfidenceStr = .ok f)
    (ha : env.parseFloat a.ConfidenceStr = .error e) :
    (bulkAnalyze env s msgs).1.2 = some e ∧
      List.Forall₂ (Converted env.parseFloat) pre (bulkAnalyze env s msgs).1.1 ∧
      ∀ (s0 : σ) (ms : List String), (getAnalysis env s0 ms).err ≠ none →
        (getAnalysis env s0 ms).res = [] := by
  obtain ⟨out, hout, hconv⟩ := convertLoop_stops env.parseFloat a post e ha pre [] hpre
  have hb : (bulkAnalyze env s msgs).1 = (out, some e) := by
    simp [bulkAnalyze, hpost, decodeResponse, hjs, hout]
  rw [hb]
  exact ⟨rfl, hconv, fun s0 ms h => getAnalysis_error_no_results env s0 ms h⟩

/-- C6 as amended, applied to a response of two records, the second with the confidence
`abc`. -/
theorem bulkAnalyze_parse_error_keeps_earlier_witness :
    (bulkAnalyze (demoEnv 200 badSecondBody) () ["fix", "doc"]).1.2 =
        some "strconv.ParseFloat: parsing \"abc\": invalid syntax" ∧
      List.Forall₂ (Converted demoParseFloat) [⟨"Positive", "87.5", 0⟩]
        (bulkAnalyze (demoEnv 200 badSecondBody) () ["fix", "doc"]).1.1 :=
  have h := bulkAnalyze_parse_error_keeps_earlier (demoEnv 200 badSecondBody) ()
    ["fix", "doc"] 200 badSecondBody [⟨"Positive", "87.5", 0⟩] ⟨"Negative", "abc", 0⟩ []
    "strconv.ParseFloat: parsing \"abc\": invalid syntax" rfl demoUnmarshal_badSecond
    (by intro b hb; simp at hb; subst hb; exact ⟨0x42AF0000, demoParseFloat_ok⟩)
    (by simp [demoEnv, demoParseFloat])
  ⟨h.1, h.2.1⟩

/-- C7, refuted as stated: a response with status 500 whose body is a well-formed array of
one record with the confidence `87.5` makes `bulkAnalyze` return that record and no error,
and `getAnalysis` succeeds on it. -/
theorem bulkAnalyze_accepts_status_500 :
    ((demoEnv 500 oneRecordBody).post () ["fix"]).1 = .response 500 (.ok oneRecordBody) ∧
      (bulkAnalyze (demoEnv 500 oneRecordBody) () ["fix"]).1 =
        ([⟨"Positive", "87.5", 0x42AF0000⟩], none) ∧
      (getAnalysis (demoEnv 500 oneRecordBody) () ["fix"]).err = none ∧
      (getAnalysis (demoEnv 500 oneRecordBody) () ["fix"]).res =
        [⟨"Positive", "87.5", 0x42AF0000⟩] := by
  refine ⟨rfl, by rw [bulkAnalyze_demo_oneRecord], ?_, ?_⟩ <;>
    simp [getAnalysis, getAnalysisLoop, bulkAnalyze_demo_oneRecord, jsonMarshalSize_fix,
      maxPayload]

/-- C7, amended: `bulkAnalyze` returns an error exactly when `Post` fails, the body cannot
be read, the body does not decode, or some confidence does not parse, whatever the status
of the response, which is not inspected; `getAnalysis` returns an error exactly when one
of its `bulkAnalyze` calls does. -/
theorem bulkAnalyze_error_iff_rejected {σ γ : Type} (env : Env σ γ) (s : σ)
    (msgs : List String) :
    ((bulkAnalyze env s msgs).1.2 ≠ none ↔ Rejected env (env.post s msgs).1) ∧
      ((getAnalysis env s msgs).err ≠ none ↔
        ∃ c ∈ (getAnalysis env s msgs).calls, c.err ≠ none) := by
  refine ⟨?_, getAnalysis_error_iff env s msgs⟩
  simp only [bulkAnalyze]
  cases (env.post s msgs).1 with
  | transportError e => simp [decodeResponse, Rejected]
  | response status body =>
    cases body with
    | error e => simp [decodeResponse, Rejected]
    | ok js =>
      simp only [decodeResponse, Rejected]
      cases env.unmarshal js with
      | error e => simp
      | ok as => exact convertLoop_error_iff env.parseFloat as []

/-! ## `getMessages` -/

theorem isMerge_eq_false_iff (m : String) : isMerge m = false ↔ keptMessage m := by
  unfold isMerge hasPrefix keptMessage
  rw [Bool.or_eq_false_iff, ← List.isPrefixOf_iff_prefix, ← List.isPrefixOf_iff_prefix,
    Bool.not_eq_true, Bool.not_eq_true]

theorem appendCommits_eq :
    ∀ (commits msgs : List String),
      appendCommits commits msgs = msgs ++ commits.filter (fun m => decide (keptMessage m)) := by
  intro commits
  induction commits with
  | nil => intro msgs; simp [appendCommits]
  | cons c cs ih =>
    intro msgs
    simp only [appendCommits]
    by_cases h : isMerge c = true
    · have hk : ¬ keptMessage c := by
        rw [← isMerge_eq_false_iff]; simp [h]
      simp [h, hk, ih]
    · have hk : keptMessage c := by
        rw [← isMerge_eq_false_iff]; simpa using h
      simp [h, hk, ih]

theorem getMessagesLoop_pages {σ γ : Type} (env : Env σ γ) (g : γ) (page : Nat)
    (pages : List (List String)) (h : ServesPages env g page pages) :
    ∀ (fuel : Nat) (msgs : List String), pages.length ≤ fuel →
      ∃ g', getMessagesLoop env fuel g page msgs =
        some ((msgs ++ pages.flatten.filter (fun m => decide (keptMessage m)), none), g') := by
  induction h with
  | @last g0 g1 page0 commits hl =>
    intro fuel msgs hf
    cases fuel with
    | zero => simp at hf
    | succ fuel => exact ⟨g1, by simp [getMessagesLoop, hl, appendCommits_eq]⟩
  | @more g0 g1 page0 next commits rest hl hne _ ih =>
    intro fuel msgs hf
    cases fuel with
    | zero => simp at hf
    | succ fuel =>
      obtain ⟨g2, hg2⟩ := ih fuel (appendCommits commits msgs) (by simpa using hf)
      refine ⟨g2, ?_⟩
      rw [appendCommits_eq] at hg2
      simp only [getMessagesLoop, hl, hne, if_false, appendCommits_eq, hg2]
      simp

/-- C5: when the listing service answers with the pages `pages` without error, the last
one with `NextPage` 0, `getMessages` allowed at least that many requests returns, without
error, the messages of the concatenated pages that start with neither `Merge pull request`
nor `Merge branch`, in page order and in-page order. -/
theorem getMessages_filters_merge_commits {σ γ : Type} (env : Env σ γ) (g : γ)
    (pages : List (List String)) (h : ServesPages env g 1 pages) (fuel : Nat)
    (hfuel : pages.length ≤ fuel) :
    ∃ g', getMessages env fuel g =
      some ((pages.flatten.filter (fun m => decide (keptMessage m)), none), g') := by
  obtain ⟨g', hg'⟩ := getMessagesLoop_pages env g 1 pages h fuel [] hfuel
  exact ⟨g', by simpa [getMessages] using hg'⟩

theorem demo_pages_kept :
    (([["Merge branch dev", "fix the build"],
      ["add a feature", "Merge pull request #3 from dev"]] : List (List String)).flatten.filter
        (fun m => decide (keptMessage m))) = ["fix the build", "add a feature"] := by
  decide

/-- C5, applied to a listing of two pages with one merge commit on each. -/
theorem getMessages_filters_merge_commits_witness :
    ServesPages (demoEnv 200 "[]") () 1
        [["Merge branch dev", "fix the build"],
         ["add a feature", "Merge pull request #3 from dev"]] ∧
      ∃ g', getMessages (demoEnv 200 "[]") 2 () =
        some ((["fix the build", "add a feature"], none), g') := by
  have hs : ServesPages (demoEnv 200 "[]") () 1
      [["Merge branch dev", "fix the build"],
       ["add a feature", "Merge pull request #3 from dev"]] :=
    @ServesPages.more Unit Unit (demoEnv 200 "[]") () () 1 2 _ _ rfl (by decide)
      (@ServesPages.last Unit Unit (demoEnv 200 "[]") () () 2 _ rfl)
  have h := getMessages_filters_merge_commits (demoEnv 200 "[]") () _ hs 2 (by decide)
  rw [demo_pages_kept] at h
  exact ⟨hs, h⟩

/-! ## `NewRepos` -/

theorem splitSlashAux_length :
    ∀ (cs cur : List Char), (splitSlashAux cs cur).length = cs.count '/' + 1 := by
  intro cs
  induction cs with
  | nil => intro cur; simp [splitSlashAux]
  | cons c cs ih =>
    intro cur
    simp only [splitSlashAux]
    by_cases h : c = '/'
    · subst h; simp [ih]
    · have h' : ¬ ('/' = c) := fun e => h e.symm
      simp [h, ih, List.count_cons, h']

theorem splitSlashAux_one :
    ∀ (cs cur : List Char) (n : String), splitSlashAux cs cur = [n] →
      n.data = cur ++ cs ∧ '/' ∉ cs := by
  intro cs
  induction cs with
  | nil =>
    intro cur n h
    simp only [splitSlashAux, List.cons.injEq, and_true] at h
    subst h; simp
  | cons c cs ih =>
    intro cur n h
    simp only [splitSlashAux] at h
    by_cases hc : c = '/'
    · simp only [hc, if_true, List.cons.injEq] at h
      have hl := splitSlashAux_length cs []
      rw [h.2] at hl
      simp at hl
    · simp only [hc, if_false] at h
      obtain ⟨h1, h2⟩ := ih _ _ h
      refine ⟨by simpa using h1, ?_⟩
      intro hmem
      rcases List.mem_cons.mp hmem with e | e
      · exact hc e.symm
      · exact h2 e

theorem splitSlashAux_two :
    ∀ (cs cur : List Char) (o n : String), splitSlashAux cs cur = [o, n] → '/' ∉ cur →
      cur ++ cs = o.data ++ '/' :: n.data ∧ '/' ∉ o.data ∧ '/' ∉ n.data := by
  intro cs
  induction cs with
  | nil =>
    intro cur o n h
    simp [splitSlashAux] at h
  | cons c cs ih =>
    intro cur o n h hcur
    simp only [splitSlashAux] at h
    by_cases hc : c = '/'
    · simp only [hc, if_true, List.cons.injEq] at h
      obtain ⟨ho, hn⟩ := h
      obtain ⟨h1, h2⟩ := splitSlashAux_one cs [] n hn
      subst ho
      simp only [List.nil_append] at h1
      refine ⟨by simp [hc, h1], hcur, by rw [h1]; exact h2⟩
    · simp only [hc, if_false] at h
      obtain ⟨h1, h2, h3⟩ := ih _ o n h (by
        intro hmem
        rcases List.mem_append.mp hmem with e | e
        · exact hcur e
        · simp at e; exact hc e.symm)
      exact ⟨by simpa using h1, h2, h3⟩

theorem NewReposLoop_acc :
    ∀ (r : List String) (repos : List Repo),
      NewReposLoop r repos = repos ++ NewReposLoop r [] := by
  intro r
  induction r with
  | nil => intro repos; simp [NewReposLoop]
  | cons id r ih =>
    intro repos
    simp only [NewReposLoop]
    split
    · rw [ih (repos ++ _), ih ([] ++ _)]; simp
    · exact ih repos

theorem NewRepos_cons_kept (id : String) (r : List String) (o n : String)
    (h : splitSlash id = [o, n]) : NewRepos (id :: r) = ⟨o, n⟩ :: NewRepos r := by
  simp only [NewRepos, NewReposLoop, h]
  rw [NewReposLoop_acc]; simp

theorem NewRepos_cons_skipped (id : String) (r : List String)
    (h : ∀ o n, splitSlash id ≠ [o, n]) : NewRepos (id :: r) = NewRepos r := by
  unfold NewRepos
  rw [NewReposLoop]
  split
  · rename_i o n heq
    exact absurd heq (h o n)
  · rfl

theorem splitSlash_two_iff (id : String) :
    (∃ o n, splitSlash id = [o, n]) ↔ id.data.count '/' = 1 := by
  have hl := splitSlashAux_length id.data []
  constructor
  · rintro ⟨o, n, h⟩
    simp only [splitSlash] at h
    rw [h] at hl
    simp at hl
    omega
  · intro h
    rw [h] at hl
    match hs : splitSlashAux id.data [], hl with
    | [o, n], _ => exact ⟨o, n, hs⟩

/-- C8, refuted as stated: identifiers with an empty owner or an empty name are kept. -/
theorem NewRepos_keeps_empty_parts :
    NewRepos ["/name", "owner/", "/"] = [⟨"", "name"⟩, ⟨"owner", ""⟩, ⟨"", ""⟩] := by
  decide

/-- C8, amended: `NewRepos` keeps, in order, exactly the identifiers that contain exactly
one `/`, each as the part before the `/` and the part after it, either of which may be
empty; every other identifier is skipped. -/
theorem NewRepos_keeps_exactly_one_separator (r : List String) :
    (NewRepos r).map Repo.FullName = r.filter (fun id => decide (id.data.count '/' = 1)) ∧
      ∀ p ∈ NewRepos r, '/' ∉ p.Owner.data ∧ '/' ∉ p.Name.data := by
  induction r with
  | nil => simp [NewRepos, NewReposLoop]
  | cons id r ih =>
    by_cases h : ∃ o n, splitSlash id = [o, n]
    · have hcount := (splitSlash_two_iff id).mp h
      obtain ⟨o, n, hs⟩ := h
      obtain ⟨h1, h2, h3⟩ := splitSlashAux_two id.data [] o n hs (by simp)
      have hfull : Repo.FullName ⟨o, n⟩ = id := by
        apply String.ext
        simp only [Repo.FullName, String.data_append]
        simpa using h1.symm
      rw [NewRepos_cons_kept id r o n hs]
      refine ⟨by simp [hcount, hfull, ih.1], ?_⟩
      intro p hp
      rcases List.mem_cons.mp hp with e | e
      · subst e; exact ⟨h2, h3⟩
      · exact ih.2 p e
    · have hcount : ¬ id.data.count '/' = 1 := fun hc => h ((splitSlash_two_iff id).mpr hc)
      rw [NewRepos_cons_skipped id r (fun o n hs => h ⟨o, n, hs⟩)]
      exact ⟨by simp [hcount, ih.1], ih.2⟩

/-- C8 as amended, applied to a list with every kind of identifier. -/
theorem NewRepos_keeps_exactly_one_separator_witness :
    (⟨"", "name"⟩ : Repo) ∈ NewRepos ["golang/go", "ownername", "a/b/c", "/name", "owner/"] ∧
      ('/' ∉ (⟨"", "name"⟩ : Repo).Owner.data ∧ '/' ∉ (⟨"", "name"⟩ : Repo).Name.data) ∧
      (NewRepos ["golang/go", "ownername", "a/b/c", "/name", "owner/"]).map Repo.FullName =
        ["golang/go", "/name", "owner/"] := by
  have h := NewRepos_keeps_exactly_one_separator
    ["golang/go", "ownername", "a/b/c", "/name", "owner/"]
  have hmem : (⟨"", "name"⟩ : Repo) ∈
      NewRepos ["golang/go", "ownername", "a/b/c", "/name", "owner/"] := by decide
  refine ⟨hmem, h.2 _ hmem, ?_⟩
  rw [h.1]
  decide

end SadRepos
